import Mathlib

/-!
Verification development for the SmartShop conversational tool-orchestration
engine (apps/api).  The definitions below are a shallow embedding of the
TypeScript source: pure functions become Lean functions, the orchestration
loops become fuel-based recursions (the fuel is the source's
MAX_TOOL_ITERATIONS counter), external effects (the language-model backend,
the database-backed tool handlers, the MCP subprocess calls, the floating
point square root) become explicit oracle parameters, and thrown
exceptions become Except values.  JavaScript numbers are modelled as
rationals; a JavaScript division whose result is non-finite (NaN or
Infinity) is modelled as the value none of Option Rat.
-/

namespace SmartShop

/-- Message roles, from services/llm/types.ts. -/
inductive Role
  | system
  | user
  | assistant
  | tool
deriving DecidableEq, Repr

/-- Tool-call arguments: a record of string keys to (stringified) values. -/
abbrev Args := List (String × String)

/-- ToolCall, from services/llm/types.ts. -/
structure ToolCall where
  id : String
  name : String
  arguments : Args
deriving DecidableEq, Repr

/-- Message, from services/llm/types.ts.  The optional toolCalls field is
`none` when the field is absent on the TypeScript object. -/
structure Message where
  role : Role
  content : String
  toolCallId : Option String := none
  toolCalls : Option (List ToolCall) := none
deriving DecidableEq, Repr

/-- StreamChunk, the tagged union from services/llm/types.ts.  A chart
payload is opaque to the orchestrator and modelled as a string. -/
inductive StreamChunk
  | text (content : String)
  | tool_call (toolCall : ToolCall)
  | tool_result (toolCall : ToolCall) (content : String)
  | chart (chart : String)
  | done
  | error (message : String)
deriving DecidableEq, Repr

/-- The guard `response.toolCalls && response.toolCalls.length > 0` of the
orchestration loops: an absent field and an empty list both read as "no
tool calls". -/
def Message.getToolCalls (m : Message) : List ToolCall :=
  m.toolCalls.getD []

def StreamChunk.isText : StreamChunk → Bool
  | .text _ => true
  | _ => false

def StreamChunk.isDone : StreamChunk → Bool
  | .done => true
  | _ => false

def StreamChunk.isError : StreamChunk → Bool
  | .error _ => true
  | _ => false

/-- The tool call carried by a `tool_call` chunk, if any. -/
def StreamChunk.asToolCall : StreamChunk → Option ToolCall
  | .tool_call tc => some tc
  | _ => none

/-- ChatContext, from services/llm/types.ts.  userRole is 'customer' or
'admin'. -/
inductive UserRole
  | customer
  | admin
deriving DecidableEq, Repr

structure ChatContext where
  userId : Nat
  userRole : UserRole
  userName : String
deriving DecidableEq, Repr

/-- ExtendedToolResult, from services/chat/tools.ts: a ToolResult that can
also carry an opaque chart payload. -/
structure ExtendedToolResult where
  toolCallId : String
  content : String
  chart : Option String := none
deriving DecidableEq, Repr

/-- A tool-role message as pushed by the orchestration loops:
`{ role: 'tool', content, toolCallId }`. -/
def toolMessage (content : String) (callId : String) : Message :=
  { role := .tool, content := content, toolCallId := some callId }

/-- MAX_TOOL_ITERATIONS, declared both in services/chat/ChatService.ts and
services/mcp/MCPChatService.ts. -/
def MAX_TOOL_ITERATIONS : Nat := 5

/-- The result of one `llm.chatStream` call: the chunks delivered through
the `onChunk` callback (in delivery order) together with the aggregated
final assistant message that the promise resolves to. -/
structure ProviderTurn where
  chunks : List StreamChunk
  response : Message
deriving DecidableEq, Repr

/-- An oracle standing for the streaming language-model backend: given the
transcript sent on a call, it determines that call's outcome.  Within one
orchestration turn the transcript grows strictly between calls, so a
deterministic oracle loses no generality. -/
abbrev LLMStreamOracle := List Message → ProviderTurn

/-- An oracle standing for the non-streaming `llm.chat` backend. -/
abbrev LLMChatOracle := List Message → Message

/-- One record per language-model call made by a streaming orchestration
loop: the transcript passed to the call, the provider's turn, the chunks
the orchestrator yielded during the iteration, and the messages it
appended to the transcript before the next call. -/
structure IterRec where
  transcript : List Message
  turn : ProviderTurn
  emitted : List StreamChunk
  appended : List Message
deriving DecidableEq, Repr

namespace ChatService

/-- The chunks yielded while dispatching one tool call in
ChatService.chatStream: the `tool_call` chunk, then a `chart` chunk when
the dispatch result carries a chart payload. -/
def dispatchChunks (exec : ToolCall → ExtendedToolResult) (tc : ToolCall) :
    List StreamChunk :=
  StreamChunk.tool_call tc ::
    (match (exec tc).chart with
     | some c => [StreamChunk.chart c]
     | none => [])

/-- The iteration records of ChatService.chatStream (services/chat/
ChatService.ts).  Each loop iteration collects the provider's chunks,
re-yields only the `text` ones, and on tool calls appends the assistant
message plus one tool message per call before looping.  The fuel argument
is `MAX_TOOL_ITERATIONS - iterations`. -/
def chatStreamIters (llm : LLMStreamOracle) (exec : ToolCall → ExtendedToolResult) :
    List Message → Nat → List IterRec
  | _, 0 => []
  | msgs, fuel + 1 =>
    let t := llm msgs
    let textChunks := t.chunks.filter StreamChunk.isText
    match t.response.getToolCalls with
    | [] => [⟨msgs, t, textChunks, []⟩]
    | tc :: tcs =>
      let calls := tc :: tcs
      let emitted := textChunks ++ calls.flatMap (dispatchChunks exec)
      let appended := t.response ::
        calls.map (fun c => toolMessage (exec c).content c.id)
      ⟨msgs, t, emitted, appended⟩ ::
        chatStreamIters llm exec (msgs ++ appended) fuel

/-- The full chunk sequence produced by one ChatService.chatStream turn:
the chunks of each iteration, then the single trailing `done`. -/
def chatStreamChunks (llm : LLMStreamOracle) (exec : ToolCall → ExtendedToolResult)
    (msgs : List Message) (fuel : Nat) : List StreamChunk :=
  (chatStreamIters llm exec msgs fuel).flatMap IterRec.emitted ++ [StreamChunk.done]

/-- The tool-calling loop of the non-streaming ChatService.chat, returning
the number of `llm.chat` calls it performs together with the final
response.  The loop runs while the current response requests tool calls
and fuel (iterations) remains; each executed iteration performs exactly
one further `llm.chat` call. -/
def chatLoop (llm : LLMChatOracle) (exec : ToolCall → ExtendedToolResult) :
    Message → List Message → Nat → Nat × Message
  | response, _, 0 => (0, response)
  | response, msgs, fuel + 1 =>
    match response.getToolCalls with
    | [] => (0, response)
    | tc :: tcs =>
      let calls := tc :: tcs
      let appended := response ::
        calls.map (fun c => toolMessage (exec c).content c.id)
      let next := llm (msgs ++ appended)
      let rest := chatLoop llm exec next (msgs ++ appended) fuel
      (rest.1 + 1, rest.2)

/-- ChatService.chat: one initial `llm.chat` call, then the tool loop.
Returns (number of llm.chat calls performed, final response). -/
def chat (llm : LLMChatOracle) (exec : ToolCall → ExtendedToolResult)
    (msgs : List Message) : Nat × Message :=
  let r0 := llm msgs
  let rest := chatLoop llm exec r0 msgs MAX_TOOL_ITERATIONS
  (rest.1 + 1, rest.2)

end ChatService

namespace MCPChatService

/-- The apology message returned by MCPChatService.chat when the iteration
cap is exhausted while tool calls are still being requested. -/
def apologyMessage : Message :=
  { role := .assistant,
    content := "I apologize, but I encountered an issue processing your request. Please try again with a simpler question." }

/-- The iteration records of MCPChatService.chatStream.  Unlike
ChatService.chatStream, every collected provider chunk is re-yielded (not
only the text ones), and each dispatched tool call additionally yields a
`tool_result` chunk.  Tool execution goes through
MCPManager.executeToolCall, which never throws and returns a plain string
(errors come back as a JSON error payload), modelled by the total oracle
`execMCP`. -/
def chatStreamIters (llm : LLMStreamOracle) (execMCP : ToolCall → String) :
    List Message → Nat → List IterRec
  | _, 0 => []
  | msgs, fuel + 1 =>
    let t := llm msgs
    match t.response.getToolCalls with
    | [] => [⟨msgs, t, t.chunks, []⟩]
    | tc :: tcs =>
      let calls := tc :: tcs
      let emitted := t.chunks ++
        calls.map (fun c => StreamChunk.tool_result c (execMCP c))
      let appended := t.response ::
        calls.map (fun c => toolMessage (execMCP c) c.id)
      ⟨msgs, t, emitted, appended⟩ ::
        chatStreamIters llm execMCP (msgs ++ appended) fuel

/-- The full chunk sequence of one MCPChatService.chatStream turn.  On the
natural-completion path the generator yields `done` right after the last
provider's chunks and returns; on the cap-exhaustion path it yields `done`
after the loop; both give the single trailing `done` below (any further
`done` chunks in the sequence come from the re-yielded provider chunks). -/
def chatStreamChunks (llm : LLMStreamOracle) (execMCP : ToolCall → String)
    (msgs : List Message) (fuel : Nat) : List StreamChunk :=
  (chatStreamIters llm execMCP msgs fuel).flatMap IterRec.emitted ++ [StreamChunk.done]

/-- The loop of the non-streaming MCPChatService.chat, returning the
number of `llm.chat` calls performed and the final response; when the
iteration cap is exhausted the apology message is returned. -/
def chatLoop (llm : LLMChatOracle) (execMCP : ToolCall → String) :
    List Message → Nat → Nat × Message
  | _, 0 => (0, apologyMessage)
  | msgs, fuel + 1 =>
    let response := llm msgs
    match response.getToolCalls with
    | [] => (1, response)
    | tc :: tcs =>
      let calls := tc :: tcs
      let appended := response ::
        calls.map (fun c => toolMessage (execMCP c) c.id)
      let rest := chatLoop llm execMCP (msgs ++ appended) fuel
      (rest.1 + 1, rest.2)

/-- MCPChatService.chat. -/
def chat (llm : LLMChatOracle) (execMCP : ToolCall → String)
    (msgs : List Message) : Nat × Message :=
  chatLoop llm execMCP msgs MAX_TOOL_ITERATIONS

end MCPChatService

/-! Local tool registry and dispatch, from services/chat/tools.ts. -/

/-- The payload a tool handler resolves with: its JSON serialization (what
JSON.stringify produces on it) and the chart payload when the object has a
chart field. -/
structure HandlerPayload where
  json : String
  chart : Option String := none
deriving DecidableEq, Repr

/-- A handler either resolves with a payload or throws an Error(message). -/
abbrev ToolOutcome := Except String HandlerPayload

/-- Oracles for the database-backed tool handler bodies of
services/chat/tools.ts.  Each field stands for the corresponding handler
function: the argument extraction and the database query it performs are
outside the dispatch logic under verification. -/
structure Handlers where
  semanticSearchProducts : Args → ToolOutcome
  searchProducts : Args → ToolOutcome
  getProductDetails : Args → ToolOutcome
  getMyOrders : Nat → Args → ToolOutcome
  getOrderDetails : Nat → Args → ToolOutcome
  getMyCart : Nat → ToolOutcome
  getMySpending : Nat → Args → ToolOutcome
  getSalesDashboard : ToolOutcome
  getSalesAnalytics : Args → ToolOutcome
  getTopProducts : Args → ToolOutcome
  getInventoryStatus : Args → ToolOutcome
  getRevenueByCategory : Args → ToolOutcome

/-- The five tool names whose dispatch cases re-check the caller's role
before running the handler. -/
def adminGatedToolNames : List String :=
  ["get_sales_dashboard", "get_sales_analytics", "get_top_products",
   "get_inventory_status", "get_revenue_by_category"]

/-- executeToolInternal: the dispatch switch of services/chat/tools.ts.
Admin-gated cases throw Error('Admin only') for a non-admin caller; an
unrecognized name throws Error('Unknown tool: <name>'). -/
def executeToolInternal (h : Handlers) (toolName : String) (args : Args)
    (context : ChatContext) : ToolOutcome :=
  match toolName with
  | "semantic_search_products" => h.semanticSearchProducts args
  | "search_products" => h.searchProducts args
  | "get_product_details" => h.getProductDetails args
  | "get_my_orders" => h.getMyOrders context.userId args
  | "get_order_details" => h.getOrderDetails context.userId args
  | "get_my_cart" => h.getMyCart context.userId
  | "get_my_spending" => h.getMySpending context.userId args
  | "get_sales_dashboard" =>
    if context.userRole ≠ .admin then .error "Admin only" else h.getSalesDashboard
  | "get_sales_analytics" =>
    if context.userRole ≠ .admin then .error "Admin only" else h.getSalesAnalytics args
  | "get_top_products" =>
    if context.userRole ≠ .admin then .error "Admin only" else h.getTopProducts args
  | "get_inventory_status" =>
    if context.userRole ≠ .admin then .error "Admin only" else h.getInventoryStatus args
  | "get_revenue_by_category" =>
    if context.userRole ≠ .admin then .error "Admin only" else h.getRevenueByCategory args
  | _ => .error ("Unknown tool: " ++ toolName)

/-- JSON.stringify({ error: message }) for a message with no characters
needing escapes. -/
def jsonErrorContent (message : String) : String :=
  "\x7b\"error\":\"" ++ message ++ "\"\x7d"

/-- executeTool: wraps executeToolInternal, turning a thrown error into a
normally returned result whose content is the JSON error payload (the
orchestrator boundary never sees an exception).  `now` stands for
Date.now() used to mint the toolCallId. -/
def executeTool (h : Handlers) (now : Nat) (toolName : String) (args : Args)
    (context : ChatContext) : ExtendedToolResult :=
  match executeToolInternal h toolName args context with
  | .ok payload =>
    { toolCallId := "tool_" ++ toString now,
      content := payload.json,
      chart := payload.chart }
  | .error message =>
    { toolCallId := "tool_" ++ toString now,
      content := jsonErrorContent message,
      chart := none }

/-! Remote tool gateway, from services/mcp/MCPClient.ts. -/

namespace MCPManager

/-- A live connection as far as callTool is concerned: whether the
protocol client can still be reached is abstracted by the call oracle. -/
structure Connection where
  serverName : String
deriving DecidableEq, Repr

/-- The mutable state of MCPManager: the connections map and the
tool-name-to-server index, both keyed by name. -/
structure State where
  connections : List (String × Connection)
  toolToServer : List (String × String)
deriving DecidableEq, Repr

/-- MCPManager.callTool: look the owning server up in the tool index
(throwing 'Unknown tool: <name>' on a miss), then the connection
(throwing 'Server not connected: <server>' on a miss), then forward the
call; the forwarded call's text extraction is abstracted by `callOracle`. -/
def callTool (st : State) (callOracle : String → String → Args → String)
    (toolName : String) (args : Args) : Except String String :=
  match st.toolToServer.lookup toolName with
  | none => .error ("Unknown tool: " ++ toolName)
  | some serverName =>
    match st.connections.lookup serverName with
    | none => .error ("Server not connected: " ++ serverName)
    | some _ => .ok (callOracle serverName toolName args)

/-- MCPManager.disconnectAll: close every session and kill every process
(best-effort, abstracted away), then clear both the connections map and
the tool index. -/
def disconnectAll (_st : State) : State :=
  { connections := [], toolToServer := [] }

end MCPManager

/-! Retry/backoff policy, from services/llm/gemini-provider.ts. -/

namespace GeminiProvider

def MAX_RETRIES : Nat := 3

def INITIAL_RETRY_DELAY_MS : Int := 1000

/-- An error thrown by the backend SDK: an optional HTTP status and the
error message text. -/
structure JsError where
  status : Option Nat := none
  message : String
deriving DecidableEq, Repr

/-- Substring test on strings (String.prototype.includes). -/
def strIncludes (hay needle : String) : Bool :=
  decide (needle.data <:+: hay.data)

/-- The rate-limit classification of withRetry: status 429, or the message
mentions '429', 'Too Many Requests' or 'quota'. -/
def isRateLimited (e : JsError) : Bool :=
  e.status = some 429 || strIncludes e.message "429" ||
    strIncludes e.message "Too Many Requests" || strIncludes e.message "quota"

/-- Case-insensitive character match, for the regex's /i flag. -/
def charMatchesCI (pat c : Char) : Bool :=
  pat.toLower = c.toLower

/-- Match a literal (the fixed part of the regex) case-insensitively,
returning the remaining input. -/
def matchLiteralCI : List Char → List Char → Option (List Char)
  | [], rest => some rest
  | _ :: _, [] => none
  | p :: ps, c :: cs =>
    if charMatchesCI p c then matchLiteralCI ps cs else none

/-- Digits of a natural number literal read greedily (the regex's \d+). -/
def digitsToNat (ds : List Char) : Nat :=
  ds.foldl (fun n c => n * 10 + (c.toNat - 48)) 0

/-- parseFloat on the matched group `\d+(\.\d+)?`: all the digits over
ten to the number of fractional digits. -/
def parseNumber (intDs fracDs : List Char) : Rat :=
  Rat.divInt (digitsToNat (intDs ++ fracDs)) ((10 : Int) ^ fracDs.length)

/-- String.prototype.startsWith, on the character lists. -/
def strStartsWith (s pre : String) : Bool :=
  List.isPrefixOf pre.data s.data

/-- The ordered alternation `(ms|s|m|h|seconds?|minutes?|hours?)` of the
retry regex, tried at the current position: the first alternative that
matches wins, so 'seconds', 'minutes' and 'hours' are captured as their
leading letter ('s', 'm', 'h') and only a literal 'ms' is captured whole.
Returns the lowercased captured unit, or none when no alternative matches
(the group is optional). -/
def matchUnit (cs : List Char) : Option String :=
  if (matchLiteralCI "ms".data cs).isSome then some "ms"
  else if (matchLiteralCI "s".data cs).isSome then some "s"
  else if (matchLiteralCI "m".data cs).isSome then some "m"
  else if (matchLiteralCI "h".data cs).isSome then some "h"
  else none

/-- Try the regex `retry in (\d+(?:\.\d+)?)\s*(ms|s|m|h|seconds?|minutes?|hours?)?`
anchored at the head of the input, returning the parsed number and unit. -/
def matchRetryAt (cs : List Char) : Option (Rat × Option String) :=
  match matchLiteralCI "retry in ".data cs with
  | none => none
  | some rest =>
    let intDs := rest.takeWhile Char.isDigit
    let rest1 := rest.dropWhile Char.isDigit
    if intDs.isEmpty then none
    else
      let (fracDs, rest2) :=
        match rest1 with
        | '.' :: r =>
          let f := r.takeWhile Char.isDigit
          if f.isEmpty then ([], rest1) else (f, r.dropWhile Char.isDigit)
        | _ => ([], rest1)
      let rest3 := rest2.dropWhile (fun c => c = ' ' || c = '\t' || c = '\n' || c = '\r')
      some (parseNumber intDs fracDs, matchUnit rest3)

/-- String.prototype.match: the leftmost position where the retry pattern
matches. -/
def findRetryMatch : List Char → Option (Rat × Option String)
  | [] => none
  | c :: cs =>
    match matchRetryAt (c :: cs) with
    | some r => some r
    | none => findRetryMatch cs

/-- Math.ceil on a rational. -/
def jsCeil (q : Rat) : Int := -(Rat.floor (-q))

/-- The unit normalization of withRetry: hours, then minutes (guarded
against 'ms'), then milliseconds, and seconds as the default (also when
the unit group did not match). -/
def unitDelayMs (value : Rat) (unit : Option String) : Int :=
  match unit with
  | some u =>
    if strStartsWith u "h" then jsCeil (value * 60 * 60 * 1000)
    else if strStartsWith u "m" && !strStartsWith u "ms" then jsCeil (value * 60 * 1000)
    else if u = "ms" then jsCeil value
    else jsCeil (value * 1000)
  | none => jsCeil (value * 1000)

/-- The retry delay computed by withRetry for a rate-limited failure on
0-based attempt number `attempt`: a delay parsed from the error message
(plus the 1000 ms safety buffer), else the exponential fallback
INITIAL_RETRY_DELAY_MS * 2 ^ attempt. -/
def computeRetryDelay (message : String) (attempt : Nat) : Int :=
  match findRetryMatch message.data with
  | some (value, unit) => unitDelayMs value unit + 1000
  | none => INITIAL_RETRY_DELAY_MS * 2 ^ attempt

/-- The withRetry loop over an operation oracle giving each attempt's
outcome.  Returns the list of delays slept (in order) and the final
outcome.  The fuel is MAX_RETRIES - attempt and the recursion preserves
the source's guard `attempt < MAX_RETRIES - 1`. -/
def withRetryGo {α : Type} (op : Nat → Except JsError α) :
    Nat → Nat → List Int × Except JsError α
  | attempt, 0 =>
    ([], match op attempt with
         | .ok a => .ok a
         | .error e => .error e)
  | attempt, fuel + 1 =>
    match op attempt with
    | .ok a => ([], .ok a)
    | .error e =>
      if isRateLimited e && attempt < MAX_RETRIES - 1 then
        let d := computeRetryDelay e.message attempt
        let rest := withRetryGo op (attempt + 1) fuel
        (d :: rest.1, rest.2)
      else ([], .error e)

/-- GeminiProvider.withRetry: up to MAX_RETRIES attempts starting at
attempt 0. -/
def withRetry {α : Type} (op : Nat → Except JsError α) :
    List Int × Except JsError α :=
  withRetryGo op 0 MAX_RETRIES

end GeminiProvider

/-! Retrieval engine: VectorStore, EmbeddingService, RAGQueryEngine
(services/rag).  Vector components are modelled as rationals; the floating
point Math.sqrt is an oracle parameter, together with its one property
the guards rely on. -/

/-- Sum of the products over the zipped prefix (the loop accumulator dotProduct). -/
def dotQ (a b : List Rat) : Rat :=
  (a.zip b).foldl (fun s xy => s + xy.1 * xy.2) 0

/-- Sum of the squares (the loop accumulators normA / normB, at equal lengths). -/
def normSq (a : List Rat) : Rat :=
  a.foldl (fun s x => s + x * x) 0

namespace VectorStore

/-- The fused accumulator loop of VectorStore.cosineSimilarity:
`(dotProduct, normA, normB)` after one pass over the paired entries. -/
def cosAcc (a b : List Rat) : Rat × Rat × Rat :=
  (a.zip b).foldl
    (fun s xy => (s.1 + xy.1 * xy.2, s.2.1 + xy.1 * xy.1, s.2.2 + xy.2 * xy.2))
    (0, 0, 0)

/-- The accumulate-then-divide tail of VectorStore.cosineSimilarity, after
the truncation step has aligned the lengths: the `denominator === 0`
guard returns 0, else the dot product over the denominator. -/
def cosineSimilarityAligned (sqrt : Rat → Rat) (a b : List Rat) : Rat :=
  if sqrt (cosAcc a b).2.1 * sqrt (cosAcc a b).2.2 = 0 then 0
  else (cosAcc a b).1 / (sqrt (cosAcc a b).2.1 * sqrt (cosAcc a b).2.2)

/-- VectorStore.cosineSimilarity (services/rag/VectorStore.ts): vectors of
unequal length are truncated to the shorter length; a zero denominator
(zero L2 norm on either side) yields 0 instead of a division. -/
def cosineSimilarity (sqrt : Rat → Rat) (a b : List Rat) : Rat :=
  if a.length ≠ b.length then
    cosineSimilarityAligned sqrt (a.take (min a.length b.length))
      (b.take (min a.length b.length))
  else cosineSimilarityAligned sqrt a b

/-- A stored row of the embeddings table, after JSON.parse of its
embedding and metadata columns.  Metadata values are modelled as
strings. -/
structure StoredRow where
  id : String
  content : String
  embedding : List Rat
  metadata : List (String × String)
deriving DecidableEq, Repr

/-- SearchResult, from services/rag/VectorStore.ts. -/
structure SearchResult where
  id : String
  content : String
  metadata : List (String × String)
  score : Rat
deriving DecidableEq, Repr

/-- The WHERE clause built from a metadata filter: every filter key must
equal the row's metadata value. -/
def metadataMatches (filter : List (String × String)) (metadata : List (String × String)) : Bool :=
  filter.all (fun kv => metadata.lookup kv.1 = some kv.2)

/-- Insert into a list already sorted by descending score, keeping it
sorted. -/
def insertByScoreDesc (x : SearchResult) : List SearchResult → List SearchResult
  | [] => [x]
  | y :: ys => if y.score ≤ x.score then x :: y :: ys else y :: insertByScoreDesc x ys

/-- A sort by descending score, modelling
`results.sort((a, b) => b.score - a.score)`. -/
def sortByScoreDesc : List SearchResult → List SearchResult
  | [] => []
  | x :: xs => insertByScoreDesc x (sortByScoreDesc xs)

/-- VectorStore.search: select the rows (optionally pre-filtered by
metadata equality), score each against the query embedding with cosine
similarity, sort descending by score and keep the first topK. -/
def search (sqrt : Rat → Rat) (rows : List StoredRow) (queryEmbedding : List Rat)
    (topK : Nat) (filter : Option (List (String × String))) : List SearchResult :=
  let selected :=
    match filter with
    | some f =>
      if f.isEmpty then rows else rows.filter (fun r => metadataMatches f r.metadata)
    | none => rows
  let results := selected.map (fun r =>
    { id := r.id, content := r.content, metadata := r.metadata,
      score := cosineSimilarity sqrt queryEmbedding r.embedding })
  (sortByScoreDesc results).take topK

end VectorStore

namespace EmbeddingService

/-- A JavaScript floating point division result: none models the
non-finite outcomes (NaN, ±Infinity) of dividing by zero. -/
def jsDiv (x y : Rat) : Option Rat :=
  if y = 0 then none else some (x / y)

/-- EmbeddingService.cosineSimilarity: unlike the Vector Store's version,
vectors of unequal length throw
Error('Embeddings must have the same dimensions'), and the final division
is unguarded, so a zero denominator produces a non-finite value rather
than 0. -/
def cosineSimilarity (sqrt : Rat → Rat) (a b : List Rat) :
    Except String (Option Rat) :=
  if a.length ≠ b.length then
    .error "Embeddings must have the same dimensions"
  else
    .ok (jsDiv (VectorStore.cosAcc a b).1
      (sqrt (VectorStore.cosAcc a b).2.1 * sqrt (VectorStore.cosAcc a b).2.2))

end EmbeddingService

namespace RAGQueryEngine

open VectorStore

/-- RAGResult, from services/rag/RAGQueryEngine.ts. -/
structure RAGResult where
  query : String
  results : List SearchResult
  context : String
deriving Repr

/-- The context string for an empty surviving-result list. -/
def noRelevantContext (query : String) : String :=
  "No relevant products found for: \"" ++ query ++ "\""

/-- RAGQueryEngine.buildContext: the no-match message when nothing
survived, else a numbered block over the surviving results.  The
per-result line (name, category, price formatting, description snippet,
relevance percentage) involves floating point number formatting and is
abstracted as the renderLine parameter. -/
def buildContext (renderLine : Nat → SearchResult → String)
    (query : String) (results : List SearchResult) : String :=
  if results.isEmpty then noRelevantContext query
  else
    let productList :=
      String.intercalate "\n\n"
        (results.enum.map (fun ri => renderLine ri.1 ri.2))
    "Found " ++ toString results.length ++ " relevant products for \"" ++
      query ++ "\":\n\n" ++ productList

/-- RAGQueryEngine.search: embed the query (embedding backend abstracted
as the embedQuery oracle), search the store, drop every result scoring
below minScore, and build the context over the survivors. -/
def ragSearch (sqrt : Rat → Rat) (embedQuery : String → List Rat)
    (renderLine : Nat → SearchResult → String) (rows : List StoredRow)
    (minScore : Rat) (query : String) (topK : Nat)
    (filter : Option (List (String × String))) : RAGResult :=
  let queryEmbedding := embedQuery query
  let results := VectorStore.search sqrt rows queryEmbedding topK filter
  let filteredResults := results.filter (fun r => minScore ≤ r.score)
  { query := query,
    results := filteredResults,
    context := buildContext renderLine query filteredResults }

end RAGQueryEngine

/-! Concrete fixtures used by witnesses and counterexamples. -/

/-- A handler environment whose every handler resolves with an empty JSON
array and no chart. -/
def trivialHandlers : Handlers where
  semanticSearchProducts := fun _ => .ok ⟨"[]", none⟩
  searchProducts := fun _ => .ok ⟨"[]", none⟩
  getProductDetails := fun _ => .ok ⟨"[]", none⟩
  getMyOrders := fun _ _ => .ok ⟨"[]", none⟩
  getOrderDetails := fun _ _ => .ok ⟨"[]", none⟩
  getMyCart := fun _ => .ok ⟨"[]", none⟩
  getMySpending := fun _ _ => .ok ⟨"[]", none⟩
  getSalesDashboard := .ok ⟨"[]", none⟩
  getSalesAnalytics := fun _ => .ok ⟨"[]", none⟩
  getTopProducts := fun _ => .ok ⟨"[]", none⟩
  getInventoryStatus := fun _ => .ok ⟨"[]", none⟩
  getRevenueByCategory := fun _ => .ok ⟨"[]", none⟩

/-- A customer-role chat context. -/
def ctxCustomer : ChatContext := ⟨1, .customer, "User"⟩

/-- A rate-limited Gemini error message naming a two-minute retry delay. -/
def rateLimitMsgMinutes : String :=
  "429 Too Many Requests: please retry in 2 minutes"

/-- A rate-limited Gemini error message naming a 500 ms retry delay. -/
def rateLimitMsg500 : String :=
  "429 Too Many Requests: please retry in 500ms"

/-- A rate-limited error message with no recognizable retry-delay text. -/
def rateLimitMsgBare : String := "You exceeded your quota"

section RatComputation

attribute [local semireducible] Rat.add Rat.mul Rat.sub Rat.inv

set_option maxRecDepth 8000

/-- C4 counterexample: on the error message naming a 500 ms delay the
computed delay is 500 + the 1000 ms safety buffer = 1500 ms, not the
501 ms the claim states. -/
theorem retry_delay_500ms_counterexample :
    GeminiProvider.isRateLimited ⟨none, rateLimitMsg500⟩ = true ∧
    GeminiProvider.computeRetryDelay rateLimitMsg500 0 = 1500 ∧
    GeminiProvider.computeRetryDelay rateLimitMsg500 0 ≠ 501 := by
  refine ⟨by decide, by decide, by decide⟩

/-- C4 (amended): "retry in 2 minutes" computes to exactly 121000 ms
(120000 + 1000 buffer); "retry in 500ms" computes to exactly 1500 ms
(500 + 1000 buffer), not 501; a message with no recognized delay pattern
falls back to 1000 * 2 ^ attempt; and on an operation that keeps failing
with a rate-limited message only MAX_RETRIES = 3 attempts are made, with
the computed delay slept before each of the two retries. -/
theorem retry_delay_computation :
    (∀ attempt, GeminiProvider.computeRetryDelay rateLimitMsgMinutes attempt = 121000) ∧
    (∀ attempt, GeminiProvider.computeRetryDelay rateLimitMsg500 attempt = 1500) ∧
    (∀ message attempt, GeminiProvider.findRetryMatch message.data = none →
      GeminiProvider.computeRetryDelay message attempt = 1000 * 2 ^ attempt) ∧
    (GeminiProvider.withRetry (α := Unit)
        (fun _ => .error ⟨none, rateLimitMsgMinutes⟩)).1 = [121000, 121000] := by
  refine ⟨fun attempt => ?_, fun attempt => ?_, fun message attempt h => ?_, by decide⟩
  · unfold GeminiProvider.computeRetryDelay
    rw [show GeminiProvider.findRetryMatch rateLimitMsgMinutes.data =
          some (2, some "m") from by decide]
    rfl
  · unfold GeminiProvider.computeRetryDelay
    rw [show GeminiProvider.findRetryMatch rateLimitMsg500.data =
          some (500, some "ms") from by decide]
    rfl
  · unfold GeminiProvider.computeRetryDelay
    rw [h]
    rfl

/-- C4 witness: the fallback clause at a concrete unparsable rate-limited
message and attempt 1 gives 2000 ms. -/
theorem retry_delay_computation_witness :
    GeminiProvider.isRateLimited ⟨none, rateLimitMsgBare⟩ = true ∧
    GeminiProvider.findRetryMatch rateLimitMsgBare.data = none ∧
    GeminiProvider.computeRetryDelay rateLimitMsgBare 1 = 2000 := by
  refine ⟨by decide, by decide, ?_⟩
  rw [retry_delay_computation.2.2.1 rateLimitMsgBare 1 (by decide)]
  decide

end RatComputation

/-- C6: invoking any admin-gated tool with a non-admin caller context
returns normally (executeTool is total) with a ToolResult whose content is
the JSON error payload naming "Admin only"; no exception crosses the
dispatch boundary. -/
theorem executeTool_adminGated_nonAdmin (h : Handlers) (now : Nat) (args : Args)
    (context : ChatContext) (toolName : String)
    (hname : toolName ∈ adminGatedToolNames) (hrole : context.userRole ≠ .admin) :
    executeTool h now toolName args context =
      { toolCallId := "tool_" ++ toString now,
        content := jsonErrorContent "Admin only", chart := none } ∧
    GeminiProvider.strIncludes
      (executeTool h now toolName args context).content "Admin only" = true := by
  have hcases : toolName = "get_sales_dashboard" ∨ toolName = "get_sales_analytics" ∨
      toolName = "get_top_products" ∨ toolName = "get_inventory_status" ∨
      toolName = "get_revenue_by_category" := by
    simpa [adminGatedToolNames] using hname
  rcases hcases with h1 | h1 | h1 | h1 | h1 <;> subst h1 <;>
    refine ⟨?_, ?_⟩ <;>
    simp [executeTool, executeToolInternal, hrole] <;>
    decide

/-- C6 witness: the admin-gated sales dashboard requested by a customer
produces the "Admin only" JSON error content. -/
theorem executeTool_adminGated_nonAdmin_witness :
    (executeTool trivialHandlers 0 "get_sales_dashboard" [] ctxCustomer).content =
      jsonErrorContent "Admin only" := by
  rw [(executeTool_adminGated_nonAdmin trivialHandlers 0 [] ctxCustomer
    "get_sales_dashboard" (by decide) (by decide)).1]

/-- A gateway state with one connected provider serving one tool, for the
C7 counterexample. -/
def gatewayState : MCPManager.State :=
  { connections := [("products", ⟨"products"⟩)],
    toolToServer := [("search_products", "products")] }

/-- A call oracle whose forwarded calls all answer "result". -/
def gatewayOracle : String → String → Args → String := fun _ _ _ => "result"

/-- C7 counterexample: before disconnectAll the tool call succeeds; after
disconnectAll the same call fails, but with the condition
"Unknown tool: search_products" — not a "server not connected" condition,
because disconnectAll clears the tool index along with the connections. -/
theorem callTool_after_disconnectAll_counterexample :
    MCPManager.callTool gatewayState gatewayOracle "search_products" [] = .ok "result" ∧
    MCPManager.callTool (MCPManager.disconnectAll gatewayState) gatewayOracle
      "search_products" [] = .error "Unknown tool: search_products" ∧
    GeminiProvider.strIncludes "Unknown tool: search_products" "not connected" = false := by
  exact ⟨rfl, rfl, by decide⟩

/-- C7 (amended): after disconnectAll every callTool — in particular on
any tool name a previously connected provider served — fails with the
"Unknown tool" condition rather than succeeding against stale state;
the "server not connected" condition cannot arise because the tool index
is cleared together with the connections map. -/
theorem callTool_after_disconnectAll (st : MCPManager.State)
    (callOracle : String → String → Args → String) (toolName : String) (args : Args) :
    MCPManager.callTool (MCPManager.disconnectAll st) callOracle toolName args =
      .error ("Unknown tool: " ++ toolName) := rfl

/-! Supporting lemmas about the fused cosine accumulator loop. -/

lemma cosAccGo_fst (p : List (Rat × Rat)) : ∀ x y z : Rat,
    (p.foldl (fun s xy => (s.1 + xy.1 * xy.2, s.2.1 + xy.1 * xy.1, s.2.2 + xy.2 * xy.2))
      (x, y, z)).1 = p.foldl (fun s xy => s + xy.1 * xy.2) x := by
  induction p with
  | nil => intro x y z; rfl
  | cons xy p ih => intro x y z; exact ih _ _ _

lemma cosAccGo_normA (p : List (Rat × Rat)) : ∀ x y z : Rat,
    (p.foldl (fun s xy => (s.1 + xy.1 * xy.2, s.2.1 + xy.1 * xy.1, s.2.2 + xy.2 * xy.2))
      (x, y, z)).2.1 = p.foldl (fun s xy => s + xy.1 * xy.1) y := by
  induction p with
  | nil => intro x y z; rfl
  | cons xy p ih => intro x y z; exact ih _ _ _

lemma cosAccGo_normB (p : List (Rat × Rat)) : ∀ x y z : Rat,
    (p.foldl (fun s xy => (s.1 + xy.1 * xy.2, s.2.1 + xy.1 * xy.1, s.2.2 + xy.2 * xy.2))
      (x, y, z)).2.2 = p.foldl (fun s xy => s + xy.2 * xy.2) z := by
  induction p with
  | nil => intro x y z; rfl
  | cons xy p ih => intro x y z; exact ih _ _ _

lemma foldl_sq_fst (p : List (Rat × Rat)) : ∀ s : Rat,
    p.foldl (fun s xy => s + xy.1 * xy.1) s =
      (p.map Prod.fst).foldl (fun s x => s + x * x) s := by
  induction p with
  | nil => intro s; rfl
  | cons xy p ih => intro s; simp only [List.foldl_cons, List.map_cons]; exact ih _

lemma foldl_sq_snd (p : List (Rat × Rat)) : ∀ s : Rat,
    p.foldl (fun s xy => s + xy.2 * xy.2) s =
      (p.map Prod.snd).foldl (fun s x => s + x * x) s := by
  induction p with
  | nil => intro s; rfl
  | cons xy p ih => intro s; simp only [List.foldl_cons, List.map_cons]; exact ih _

lemma cosAcc_fst (a b : List Rat) : (VectorStore.cosAcc a b).1 = dotQ a b :=
  cosAccGo_fst (a.zip b) 0 0 0

lemma cosAcc_normA (a b : List Rat) (h : a.length = b.length) :
    (VectorStore.cosAcc a b).2.1 = normSq a := by
  rw [VectorStore.cosAcc, cosAccGo_normA (a.zip b) 0 0 0, foldl_sq_fst,
    List.map_fst_zip a b h.le]
  rfl

lemma cosAcc_normB (a b : List Rat) (h : a.length = b.length) :
    (VectorStore.cosAcc a b).2.2 = normSq b := by
  rw [VectorStore.cosAcc, cosAccGo_normB (a.zip b) 0 0 0, foldl_sq_snd,
    List.map_snd_zip a b h.ge]
  rfl

lemma foldl_sq_nonneg (a : List Rat) : ∀ s : Rat, 0 ≤ s →
    0 ≤ a.foldl (fun s x => s + x * x) s := by
  induction a with
  | nil => intro s hs; exact hs
  | cons x a ih => intro s hs; exact ih _ (add_nonneg hs (mul_self_nonneg x))

lemma normSq_nonneg (a : List Rat) : 0 ≤ normSq a :=
  foldl_sq_nonneg a 0 le_rfl

/-- The aligned cosine tail written over dotQ/normSq. -/
lemma cosineSimilarityAligned_eq (sqrt : Rat → Rat) (a b : List Rat)
    (h : a.length = b.length) :
    VectorStore.cosineSimilarityAligned sqrt a b =
      if sqrt (normSq a) * sqrt (normSq b) = 0 then 0
      else dotQ a b / (sqrt (normSq a) * sqrt (normSq b)) := by
  rw [VectorStore.cosineSimilarityAligned, cosAcc_fst, cosAcc_normA a b h,
    cosAcc_normB a b h]

lemma take_min_length_left (a b : List Rat) :
    (a.take (min a.length b.length)).length = min a.length b.length := by
  rw [List.length_take]
  exact min_eq_left (min_le_left _ _)

lemma take_min_length_right (a b : List Rat) :
    (b.take (min a.length b.length)).length = min a.length b.length := by
  rw [List.length_take]
  exact min_eq_left (min_le_right _ _)

/-- VectorStore.cosineSimilarity always equals its value on the truncated
vectors. -/
lemma cosineSimilarity_truncates (sqrt : Rat → Rat) (a b : List Rat) :
    VectorStore.cosineSimilarity sqrt a b =
      VectorStore.cosineSimilarity sqrt (a.take (min a.length b.length))
        (b.take (min a.length b.length)) := by
  have hlen : (a.take (min a.length b.length)).length =
      (b.take (min a.length b.length)).length :=
    (take_min_length_left a b).trans (take_min_length_right a b).symm
  by_cases h : a.length = b.length
  · have ha : a.take (min a.length b.length) = a := by
      rw [h, min_self, ← h]
      exact List.take_length a
    have hb : b.take (min a.length b.length) = b := by
      rw [h, min_self]
      exact List.take_length b
    rw [ha, hb]
  · rw [VectorStore.cosineSimilarity, if_pos h, VectorStore.cosineSimilarity,
      if_neg (by rw [hlen]; exact fun hne => hne rfl)]

/-- C9: VectorStore.cosineSimilarity is total — it first truncates both
vectors to the shorter length, returns exactly 0 whenever either truncated
vector has zero L2 norm (the squared norm normSq is zero) instead of a
NaN-producing division, and otherwise returns the dot product divided by
the product of the two L2 norms, whose denominator is then provably
nonzero.  The square root of the floating point library is abstracted as
any function vanishing exactly at 0 on nonnegative inputs. -/
theorem cosineSimilarity_total (sqrt : Rat → Rat)
    (hsqrt : ∀ q : Rat, 0 ≤ q → (sqrt q = 0 ↔ q = 0)) (a b : List Rat) :
    VectorStore.cosineSimilarity sqrt a b =
      VectorStore.cosineSimilarity sqrt (a.take (min a.length b.length))
        (b.take (min a.length b.length)) ∧
    ((normSq (a.take (min a.length b.length)) = 0 ∨
      normSq (b.take (min a.length b.length)) = 0) →
      VectorStore.cosineSimilarity sqrt a b = 0) ∧
    (normSq (a.take (min a.length b.length)) ≠ 0 →
      normSq (b.take (min a.length b.length)) ≠ 0 →
      sqrt (normSq (a.take (min a.length b.length))) *
        sqrt (normSq (b.take (min a.length b.length))) ≠ 0 ∧
      VectorStore.cosineSimilarity sqrt a b =
        dotQ (a.take (min a.length b.length)) (b.take (min a.length b.length)) /
          (sqrt (normSq (a.take (min a.length b.length))) *
            sqrt (normSq (b.take (min a.length b.length))))) := by
  set a' := a.take (min a.length b.length) with ha'
  set b' := b.take (min a.length b.length) with hb'
  have hlen : a'.length = b'.length :=
    (take_min_length_left a b).trans (take_min_length_right a b).symm
  have htr : VectorStore.cosineSimilarity sqrt a b =
      VectorStore.cosineSimilarity sqrt a' b' :=
    cosineSimilarity_truncates sqrt a b
  have htr' : VectorStore.cosineSimilarity sqrt a' b' =
      VectorStore.cosineSimilarityAligned sqrt a' b' := by
    rw [VectorStore.cosineSimilarity, if_neg (by rw [hlen]; exact fun hne => hne rfl)]
  refine ⟨htr, ?_, ?_⟩
  · intro hzero
    have hden : sqrt (normSq a') * sqrt (normSq b') = 0 := by
      rcases hzero with hz | hz
      · rw [hz, (hsqrt 0 le_rfl).mpr rfl, zero_mul]
      · rw [hz, (hsqrt 0 le_rfl).mpr rfl, mul_zero]
    rw [htr, htr', cosineSimilarityAligned_eq sqrt a' b' hlen, if_pos hden]
  · intro hna hnb
    have hsa : sqrt (normSq a') ≠ 0 := fun hz =>
      hna ((hsqrt (normSq a') (normSq_nonneg a')).mp hz)
    have hsb : sqrt (normSq b') ≠ 0 := fun hz =>
      hnb ((hsqrt (normSq b') (normSq_nonneg b')).mp hz)
    have hden : sqrt (normSq a') * sqrt (normSq b') ≠ 0 := mul_ne_zero hsa hsb
    refine ⟨hden, ?_⟩
    rw [htr, htr', cosineSimilarityAligned_eq sqrt a' b' hlen, if_neg hden]

/-- A model square root for witnesses: vanishes exactly at 0. -/
def sqrtW : Rat → Rat := fun q => if q = 0 then 0 else 1

lemma sqrtW_spec : ∀ q : Rat, 0 ≤ q → (sqrtW q = 0 ↔ q = 0) := by
  intro q _
  by_cases h : q = 0 <;> simp [sqrtW, h]

section RatComputationVS

attribute [local semireducible] Rat.add Rat.mul Rat.sub Rat.inv

set_option maxRecDepth 8000

/-- C9 witness: on the concrete unequal-length pair ([0, 0], [3, 4, 5])
the truncated left vector has zero norm and the similarity is exactly 0;
on ([1, 2], [2, 1]) the denominator is nonzero and the guarded branch is
not taken. -/
theorem cosineSimilarity_total_witness :
    VectorStore.cosineSimilarity sqrtW [0, 0] [3, 4, 5] = 0 ∧
    sqrtW (normSq [(1 : Rat), 2]) * sqrtW (normSq [(2 : Rat), 1]) ≠ 0 := by
  constructor
  · exact (cosineSimilarity_total sqrtW sqrtW_spec [0, 0] [3, 4, 5]).2.1
      (Or.inl (by decide))
  · exact ((cosineSimilarity_total sqrtW sqrtW_spec [1, 2] [2, 1]).2.2
      (by decide) (by decide)).1

end RatComputationVS

/-- C10: the system's second cosine implementation,
EmbeddingService.cosineSimilarity, is not total like the Vector Store's:
any unequal-length pair throws
Error('Embeddings must have the same dimensions') instead of truncating,
and on an equal-length pair where either vector has zero L2 norm its
unguarded division returns the non-finite JavaScript value (modelled as
none), not the 0 that VectorStore.cosineSimilarity returns on the same
input. -/
theorem embeddingService_cosineSimilarity_not_total (sqrt : Rat → Rat)
    (h0 : sqrt 0 = 0) (a b : List Rat) :
    (a.length ≠ b.length →
      EmbeddingService.cosineSimilarity sqrt a b =
        .error "Embeddings must have the same dimensions") ∧
    (a.length = b.length → (normSq a = 0 ∨ normSq b = 0) →
      EmbeddingService.cosineSimilarity sqrt a b = .ok none ∧
      VectorStore.cosineSimilarity sqrt a b = 0) := by
  constructor
  · intro hne
    rw [EmbeddingService.cosineSimilarity, if_pos hne]
  · intro hlen hzero
    have hden : sqrt (normSq a) * sqrt (normSq b) = 0 := by
      rcases hzero with hz | hz
      · rw [hz, h0, zero_mul]
      · rw [hz, h0, mul_zero]
    constructor
    · rw [EmbeddingService.cosineSimilarity, if_neg (fun hne => hne hlen),
        cosAcc_normA a b hlen, cosAcc_normB a b hlen, EmbeddingService.jsDiv,
        if_pos hden]
    · rw [VectorStore.cosineSimilarity, if_neg (fun hne => hne hlen),
        cosineSimilarityAligned_eq sqrt a b hlen, if_pos hden]

section RatComputationES

attribute [local semireducible] Rat.add Rat.mul Rat.sub Rat.inv

set_option maxRecDepth 8000

/-- C10 witness: ([1], [1, 2]) throws the dimension error; ([0, 0], [3, 4])
is a zero-norm equal-length pair on which the Embedding Service's division
is non-finite while the Vector Store returns 0. -/
theorem embeddingService_cosineSimilarity_not_total_witness :
    EmbeddingService.cosineSimilarity sqrtW [1] [1, 2] =
      .error "Embeddings must have the same dimensions" ∧
    EmbeddingService.cosineSimilarity sqrtW [0, 0] [3, 4] = .ok none ∧
    VectorStore.cosineSimilarity sqrtW [0, 0] [3, 4] = 0 := by
  refine ⟨?_, ?_, ?_⟩
  · exact (embeddingService_cosineSimilarity_not_total sqrtW (by decide)
      [1] [1, 2]).1 (by decide)
  · exact ((embeddingService_cosineSimilarity_not_total sqrtW (by decide)
      [0, 0] [3, 4]).2 (by decide) (Or.inl (by decide))).1
  · exact ((embeddingService_cosineSimilarity_not_total sqrtW (by decide)
      [0, 0] [3, 4]).2 (by decide) (Or.inl (by decide))).2

end RatComputationES

/-- C8: RAGQueryEngine.search never returns a result scoring below the
configured minimum score threshold (the constructor default is 1/2), and
whenever every raw Vector Store result scores below the threshold it
returns an empty results list together with the context string stating no
relevant products were found — even when the raw search returned rows. -/
theorem ragSearch_threshold (sqrt : Rat → Rat) (embedQuery : String → List Rat)
    (renderLine : Nat → VectorStore.SearchResult → String)
    (rows : List VectorStore.StoredRow) (minScore : Rat) (query : String)
    (topK : Nat) (filter : Option (List (String × String))) :
    ((∀ r ∈ VectorStore.search sqrt rows (embedQuery query) topK filter,
        r.score < minScore) →
      (RAGQueryEngine.ragSearch sqrt embedQuery renderLine rows minScore query
        topK filter).results = [] ∧
      (RAGQueryEngine.ragSearch sqrt embedQuery renderLine rows minScore query
        topK filter).context = RAGQueryEngine.noRelevantContext query) ∧
    (∀ r ∈ (RAGQueryEngine.ragSearch sqrt embedQuery renderLine rows minScore
        query topK filter).results, minScore ≤ r.score) := by
  constructor
  · intro hall
    have hfil : (VectorStore.search sqrt rows (embedQuery query) topK
        filter).filter (fun r => decide (minScore ≤ r.score)) = [] := by
      refine List.filter_eq_nil_iff.mpr (fun r hr => ?_)
      simpa using not_le.mpr (hall r hr)
    refine ⟨?_, ?_⟩
    · show (VectorStore.search sqrt rows (embedQuery query) topK
        filter).filter (fun r => decide (minScore ≤ r.score)) = []
      exact hfil
    · show RAGQueryEngine.buildContext renderLine query
        ((VectorStore.search sqrt rows (embedQuery query) topK
          filter).filter (fun r => decide (minScore ≤ r.score))) = _
      rw [hfil]
      rfl
  · intro r hr
    have hr' : r ∈ (VectorStore.search sqrt rows (embedQuery query) topK
        filter).filter (fun r => decide (minScore ≤ r.score)) := hr
    have := (List.mem_filter.mp hr').2
    simpa using this

section RatComputationRAG

attribute [local semireducible] Rat.add Rat.mul Rat.sub Rat.inv

set_option maxRecDepth 8000

/-- A one-row store whose single document is orthogonal to every witness
query vector. -/
def rowW : VectorStore.StoredRow :=
  ⟨"product-1", "Description: a test product", [0, 1], [("category", "Audio")]⟩

/-- A query-embedding oracle returning a fixed unit vector. -/
def embedW : String → List Rat := fun _ => [1, 0]

/-- A trivial per-result renderer (the numeric formatting abstracted by
renderLine is irrelevant to the witness). -/
def renderW : Nat → VectorStore.SearchResult → String := fun _ _ => ""

/-- C8 witness: with the default 1/2 threshold, a query whose single raw
match scores 0 yields a raw Vector Store row but an empty filtered result
list and the no-relevant-products context string. -/
theorem ragSearch_threshold_witness :
    VectorStore.search sqrtW [rowW] (embedW "running headphones") 5 none ≠ [] ∧
    (RAGQueryEngine.ragSearch sqrtW embedW renderW [rowW] (Rat.divInt 1 2)
      "running headphones" 5 none).results = [] ∧
    (RAGQueryEngine.ragSearch sqrtW embedW renderW [rowW] (Rat.divInt 1 2)
      "running headphones" 5 none).context =
      RAGQueryEngine.noRelevantContext "running headphones" := by
  have h := (ragSearch_threshold sqrtW embedW renderW [rowW] (Rat.divInt 1 2)
    "running headphones" 5 none).1 (by decide)
  exact ⟨by decide, h.1, h.2⟩

end RatComputationRAG

/-! Supporting lemmas about the orchestration loops. -/

lemma cs_iters_length_le (llm : LLMStreamOracle) (exec : ToolCall → ExtendedToolResult) :
    ∀ (fuel : Nat) (msgs : List Message),
      (ChatService.chatStreamIters llm exec msgs fuel).length ≤ fuel := by
  intro fuel
  induction fuel with
  | zero => intro msgs; simp [ChatService.chatStreamIters]
  | succ fuel ih =>
    intro msgs
    cases h : (llm msgs).response.getToolCalls with
    | nil => simp [ChatService.chatStreamIters, h]
    | cons tc tcs =>
      simp only [ChatService.chatStreamIters, h, List.length_cons]
      exact Nat.succ_le_succ (ih _)

lemma mcp_iters_length_le (llm : LLMStreamOracle) (execMCP : ToolCall → String) :
    ∀ (fuel : Nat) (msgs : List Message),
      (MCPChatService.chatStreamIters llm execMCP msgs fuel).length ≤ fuel := by
  intro fuel
  induction fuel with
  | zero => intro msgs; simp [MCPChatService.chatStreamIters]
  | succ fuel ih =>
    intro msgs
    cases h : (llm msgs).response.getToolCalls with
    | nil => simp [MCPChatService.chatStreamIters, h]
    | cons tc tcs =>
      simp only [MCPChatService.chatStreamIters, h, List.length_cons]
      exact Nat.succ_le_succ (ih _)

lemma cs_chatLoop_calls_le (llm : LLMChatOracle) (exec : ToolCall → ExtendedToolResult) :
    ∀ (fuel : Nat) (response : Message) (msgs : List Message),
      (ChatService.chatLoop llm exec response msgs fuel).1 ≤ fuel := by
  intro fuel
  induction fuel with
  | zero => intro response msgs; simp [ChatService.chatLoop]
  | succ fuel ih =>
    intro response msgs
    cases h : response.getToolCalls with
    | nil => simp [ChatService.chatLoop, h]
    | cons tc tcs =>
      simp only [ChatService.chatLoop, h]
      exact Nat.succ_le_succ (ih _ _)

lemma mcp_chatLoop_calls_le (llm : LLMChatOracle) (execMCP : ToolCall → String) :
    ∀ (fuel : Nat) (msgs : List Message),
      (MCPChatService.chatLoop llm execMCP msgs fuel).1 ≤ fuel := by
  intro fuel
  induction fuel with
  | zero => intro msgs; simp [MCPChatService.chatLoop]
  | succ fuel ih =>
    intro msgs
    cases h : (llm msgs).getToolCalls with
    | nil => simp [MCPChatService.chatLoop, h]
    | cons tc tcs =>
      simp only [MCPChatService.chatLoop, h]
      exact Nat.succ_le_succ (ih _)

/-- A tool call used by concrete counterexample and witness runs. -/
def tcW : ToolCall := ⟨"call_1", "search_products", [("query", "shoes")]⟩

/-- A non-streaming model oracle that requests the same tool call on every
turn, never producing a final answer. -/
def alwaysToolsChatOracle : LLMChatOracle := fun _ =>
  { role := .assistant, content := "", toolCalls := some [tcW] }

/-- A streaming model oracle that requests the same tool call on every
turn, emitting the tool_call chunk and the provider-level done chunk as
both backends do through onChunk. -/
def alwaysToolsStreamOracle : LLMStreamOracle := fun _ =>
  { chunks := [.tool_call tcW, .done],
    response := { role := .assistant, content := "", toolCalls := some [tcW] } }

/-- A trivial local dispatch oracle. -/
def execW : ToolCall → ExtendedToolResult := fun _ => ⟨"tool_0", "[]", none⟩

/-- A trivial MCP dispatch oracle. -/
def execMCPW : ToolCall → String := fun _ => "[]"

/-- C1 counterexample: under a model that keeps requesting tool calls, the
non-streaming ChatService.chat entry point issues exactly 6
Language-Model Provider calls (one initial call plus the 5 loop
iterations), exceeding the claimed cap of 5. -/
theorem chat_llm_calls_counterexample :
    (ChatService.chat alwaysToolsChatOracle execW []).1 = 6 ∧
    ¬ (ChatService.chat alwaysToolsChatOracle execW []).1 ≤ 5 := by
  exact ⟨by decide, by decide⟩

/-- C1 (amended): for every model behavior, the streaming entry points
(ChatService.chatStream and MCPChatService.chatStream) and the
non-streaming MCPChatService.chat issue at most 5 Language-Model Provider
calls per user turn; the non-streaming ChatService.chat issues at most 6
(one initial call plus at most MAX_TOOL_ITERATIONS = 5 loop calls).  The
iteration-record list of a streaming loop has one record per provider
call, so its length is that loop's call count. -/
theorem llm_call_cap (llmC llmC' : LLMChatOracle) (llmS llmS' : LLMStreamOracle)
    (exec : ToolCall → ExtendedToolResult) (execMCP : ToolCall → String)
    (msgs msgsM msgsC msgsC' : List Message) :
    (ChatService.chatStreamIters llmS exec msgs MAX_TOOL_ITERATIONS).length ≤ 5 ∧
    (MCPChatService.chatStreamIters llmS' execMCP msgsM MAX_TOOL_ITERATIONS).length ≤ 5 ∧
    (MCPChatService.chat llmC' execMCP msgsC').1 ≤ 5 ∧
    (ChatService.chat llmC exec msgsC).1 ≤ 6 := by
  refine ⟨cs_iters_length_le llmS exec _ _, mcp_iters_length_le llmS' execMCP _ _,
    mcp_chatLoop_calls_le llmC' execMCP _ _, ?_⟩
  have h := cs_chatLoop_calls_le llmC exec MAX_TOOL_ITERATIONS (llmC msgsC) msgsC
  exact Nat.add_le_add_right h 1

/-! Supporting lemmas about the chunk sequences. -/

lemma mem_dispatchChunks (exec : ToolCall → ExtendedToolResult) (c : ToolCall)
    (ck : StreamChunk) (h : ck ∈ ChatService.dispatchChunks exec c) :
    ck = .tool_call c ∨ ∃ x, ck = .chart x := by
  unfold ChatService.dispatchChunks at h
  cases hc : (exec c).chart <;> rw [hc] at h <;> simp at h <;> tauto

lemma count_done_filter_isText (l : List StreamChunk) :
    (l.filter StreamChunk.isText).count .done = 0 :=
  List.count_eq_zero.mpr (fun hm => by
    have h := (List.mem_filter.mp hm).2
    simp [StreamChunk.isText] at h)

lemma count_done_flatMap_dispatch (exec : ToolCall → ExtendedToolResult)
    (calls : List ToolCall) :
    (calls.flatMap (ChatService.dispatchChunks exec)).count .done = 0 :=
  List.count_eq_zero.mpr (fun hm => by
    obtain ⟨c, _, hc⟩ := List.mem_flatMap.mp hm
    rcases mem_dispatchChunks exec c _ hc with h | ⟨x, h⟩ <;> simp at h)

lemma count_done_map_toolResult (execMCP : ToolCall → String) (calls : List ToolCall) :
    (calls.map (fun c => StreamChunk.tool_result c (execMCP c))).count .done = 0 :=
  List.count_eq_zero.mpr (fun hm => by
    obtain ⟨c, _, hc⟩ := List.mem_map.mp hm
    simp at hc)

lemma error_not_mem_filter_isText (l : List StreamChunk) (s : String) :
    StreamChunk.error s ∉ l.filter StreamChunk.isText := fun hm => by
  have h := (List.mem_filter.mp hm).2
  simp [StreamChunk.isText] at h

lemma error_not_mem_flatMap_dispatch (exec : ToolCall → ExtendedToolResult)
    (calls : List ToolCall) (s : String) :
    StreamChunk.error s ∉ calls.flatMap (ChatService.dispatchChunks exec) := fun hm => by
  obtain ⟨c, _, hc⟩ := List.mem_flatMap.mp hm
  rcases mem_dispatchChunks exec c _ hc with h | ⟨x, h⟩ <;> simp at h

lemma error_not_mem_map_toolResult (execMCP : ToolCall → String)
    (calls : List ToolCall) (s : String) :
    StreamChunk.error s ∉ calls.map (fun c => StreamChunk.tool_result c (execMCP c)) :=
  fun hm => by
    obtain ⟨c, _, hc⟩ := List.mem_map.mp hm
    simp at hc

lemma text_not_mem_flatMap_dispatch (exec : ToolCall → ExtendedToolResult)
    (calls : List ToolCall) (s : String) :
    StreamChunk.text s ∉ calls.flatMap (ChatService.dispatchChunks exec) := fun hm => by
  obtain ⟨c, _, hc⟩ := List.mem_flatMap.mp hm
  rcases mem_dispatchChunks exec c _ hc with h | ⟨x, h⟩ <;> simp at h

lemma text_not_mem_map_toolResult (execMCP : ToolCall → String)
    (calls : List ToolCall) (s : String) :
    StreamChunk.text s ∉ calls.map (fun c => StreamChunk.tool_result c (execMCP c)) :=
  fun hm => by
    obtain ⟨c, _, hc⟩ := List.mem_map.mp hm
    simp at hc

lemma cs_chunks_succ_nil (llm : LLMStreamOracle) (exec : ToolCall → ExtendedToolResult)
    (msgs : List Message) (fuel : Nat) (h : (llm msgs).response.getToolCalls = []) :
    ChatService.chatStreamChunks llm exec msgs (fuel + 1) =
      ((llm msgs).chunks.filter StreamChunk.isText) ++ [.done] := by
  simp [ChatService.chatStreamChunks, ChatService.chatStreamIters, h]

lemma cs_chunks_succ_cons (llm : LLMStreamOracle) (exec : ToolCall → ExtendedToolResult)
    (msgs : List Message) (fuel : Nat) (tc : ToolCall) (tcs : List ToolCall)
    (h : (llm msgs).response.getToolCalls = tc :: tcs) :
    ChatService.chatStreamChunks llm exec msgs (fuel + 1) =
      (((llm msgs).chunks.filter StreamChunk.isText) ++
        (tc :: tcs).flatMap (ChatService.dispatchChunks exec)) ++
      ChatService.chatStreamChunks llm exec
        (msgs ++ ((llm msgs).response ::
          (tc :: tcs).map (fun c => toolMessage (exec c).content c.id))) fuel := by
  simp [ChatService.chatStreamChunks, ChatService.chatStreamIters, h, List.append_assoc]

lemma mcp_chunks_succ_nil (llm : LLMStreamOracle) (execMCP : ToolCall → String)
    (msgs : List Message) (fuel : Nat) (h : (llm msgs).response.getToolCalls = []) :
    MCPChatService.chatStreamChunks llm execMCP msgs (fuel + 1) =
      (llm msgs).chunks ++ [.done] := by
  simp [MCPChatService.chatStreamChunks, MCPChatService.chatStreamIters, h]

lemma mcp_chunks_succ_cons (llm : LLMStreamOracle) (execMCP : ToolCall → String)
    (msgs : List Message) (fuel : Nat) (tc : ToolCall) (tcs : List ToolCall)
    (h : (llm msgs).response.getToolCalls = tc :: tcs) :
    MCPChatService.chatStreamChunks llm execMCP msgs (fuel + 1) =
      ((llm msgs).chunks ++
        (tc :: tcs).map (fun c => StreamChunk.tool_result c (execMCP c))) ++
      MCPChatService.chatStreamChunks llm execMCP
        (msgs ++ ((llm msgs).response ::
          (tc :: tcs).map (fun c => toolMessage (execMCP c) c.id))) fuel := by
  simp [MCPChatService.chatStreamChunks, MCPChatService.chatStreamIters, h,
    List.append_assoc]

lemma cs_chunks_count_done (llm : LLMStreamOracle) (exec : ToolCall → ExtendedToolResult) :
    ∀ (fuel : Nat) (msgs : List Message),
      (ChatService.chatStreamChunks llm exec msgs fuel).count .done = 1 := by
  intro fuel
  induction fuel with
  | zero =>
    intro msgs
    simp [ChatService.chatStreamChunks, ChatService.chatStreamIters]
  | succ fuel ih =>
    intro msgs
    cases h : (llm msgs).response.getToolCalls with
    | nil =>
      rw [cs_chunks_succ_nil llm exec msgs fuel h, List.count_append,
        count_done_filter_isText]
      rfl
    | cons tc tcs =>
      rw [cs_chunks_succ_cons llm exec msgs fuel tc tcs h, List.count_append,
        List.count_append, count_done_filter_isText, count_done_flatMap_dispatch,
        ih]

lemma mcp_chunks_count_done (llm : LLMStreamOracle) (execMCP : ToolCall → String)
    (H : ∀ ms, ((llm ms).chunks.count .done = 1)) :
    ∀ (fuel : Nat) (msgs : List Message),
      (MCPChatService.chatStreamChunks llm execMCP msgs fuel).count .done =
        (MCPChatService.chatStreamIters llm execMCP msgs fuel).length + 1 := by
  intro fuel
  induction fuel with
  | zero =>
    intro msgs
    simp [MCPChatService.chatStreamChunks, MCPChatService.chatStreamIters]
  | succ fuel ih =>
    intro msgs
    cases h : (llm msgs).response.getToolCalls with
    | nil =>
      rw [mcp_chunks_succ_nil llm execMCP msgs fuel h, List.count_append, H msgs]
      simp [MCPChatService.chatStreamIters, h]
    | cons tc tcs =>
      rw [mcp_chunks_succ_cons llm execMCP msgs fuel tc tcs h, List.count_append,
        List.count_append, H msgs, count_done_map_toolResult, ih]
      simp [MCPChatService.chatStreamIters, h, Nat.add_comm]

lemma cs_chunks_no_error (llm : LLMStreamOracle) (exec : ToolCall → ExtendedToolResult) :
    ∀ (fuel : Nat) (msgs : List Message) (s : String),
      StreamChunk.error s ∉ ChatService.chatStreamChunks llm exec msgs fuel := by
  intro fuel
  induction fuel with
  | zero =>
    intro msgs s hm
    simp [ChatService.chatStreamChunks, ChatService.chatStreamIters] at hm
  | succ fuel ih =>
    intro msgs s hm
    cases h : (llm msgs).response.getToolCalls with
    | nil =>
      rw [cs_chunks_succ_nil llm exec msgs fuel h] at hm
      rcases List.mem_append.mp hm with hm | hm
      · exact error_not_mem_filter_isText _ s hm
      · simp at hm
    | cons tc tcs =>
      rw [cs_chunks_succ_cons llm exec msgs fuel tc tcs h] at hm
      rcases List.mem_append.mp hm with hm | hm
      · rcases List.mem_append.mp hm with hm | hm
        · exact error_not_mem_filter_isText _ s hm
        · exact error_not_mem_flatMap_dispatch exec _ s hm
      · exact ih _ s hm

lemma mcp_chunks_no_error (llm : LLMStreamOracle) (execMCP : ToolCall → String)
    (H : ∀ ms s, StreamChunk.error s ∉ (llm ms).chunks) :
    ∀ (fuel : Nat) (msgs : List Message) (s : String),
      StreamChunk.error s ∉ MCPChatService.chatStreamChunks llm execMCP msgs fuel := by
  intro fuel
  induction fuel with
  | zero =>
    intro msgs s hm
    simp [MCPChatService.chatStreamChunks, MCPChatService.chatStreamIters] at hm
  | succ fuel ih =>
    intro msgs s hm
    cases h : (llm msgs).response.getToolCalls with
    | nil =>
      rw [mcp_chunks_succ_nil llm execMCP msgs fuel h] at hm
      rcases List.mem_append.mp hm with hm | hm
      · exact H msgs s hm
      · simp at hm
    | cons tc tcs =>
      rw [mcp_chunks_succ_cons llm execMCP msgs fuel tc tcs h] at hm
      rcases List.mem_append.mp hm with hm | hm
      · rcases List.mem_append.mp hm with hm | hm
        · exact H msgs s hm
        · exact error_not_mem_map_toolResult execMCP _ s hm
      · exact ih _ s hm

lemma cs_text_origin (llm : LLMStreamOracle) (exec : ToolCall → ExtendedToolResult) :
    ∀ (fuel : Nat) (msgs : List Message) (s : String),
      StreamChunk.text s ∈ ChatService.chatStreamChunks llm exec msgs fuel →
      ∃ ms, StreamChunk.text s ∈ (llm ms).chunks := by
  intro fuel
  induction fuel with
  | zero =>
    intro msgs s hm
    simp [ChatService.chatStreamChunks, ChatService.chatStreamIters] at hm
  | succ fuel ih =>
    intro msgs s hm
    cases h : (llm msgs).response.getToolCalls with
    | nil =>
      rw [cs_chunks_succ_nil llm exec msgs fuel h] at hm
      rcases List.mem_append.mp hm with hm | hm
      · exact ⟨msgs, (List.mem_filter.mp hm).1⟩
      · simp at hm
    | cons tc tcs =>
      rw [cs_chunks_succ_cons llm exec msgs fuel tc tcs h] at hm
      rcases List.mem_append.mp hm with hm | hm
      · rcases List.mem_append.mp hm with hm | hm
        · exact ⟨msgs, (List.mem_filter.mp hm).1⟩
        · exact absurd hm (text_not_mem_flatMap_dispatch exec _ s)
      · exact ih _ s hm

lemma mcp_text_origin (llm : LLMStreamOracle) (execMCP : ToolCall → String) :
    ∀ (fuel : Nat) (msgs : List Message) (s : String),
      StreamChunk.text s ∈ MCPChatService.chatStreamChunks llm execMCP msgs fuel →
      ∃ ms, StreamChunk.text s ∈ (llm ms).chunks := by
  intro fuel
  induction fuel with
  | zero =>
    intro msgs s hm
    simp [MCPChatService.chatStreamChunks, MCPChatService.chatStreamIters] at hm
  | succ fuel ih =>
    intro msgs s hm
    cases h : (llm msgs).response.getToolCalls with
    | nil =>
      rw [mcp_chunks_succ_nil llm execMCP msgs fuel h] at hm
      rcases List.mem_append.mp hm with hm | hm
      · exact ⟨msgs, hm⟩
      · simp at hm
    | cons tc tcs =>
      rw [mcp_chunks_succ_cons llm execMCP msgs fuel tc tcs h] at hm
      rcases List.mem_append.mp hm with hm | hm
      · rcases List.mem_append.mp hm with hm | hm
        · exact ⟨msgs, hm⟩
        · exact absurd hm (text_not_mem_map_toolResult execMCP _ s)
      · exact ih _ s hm

/-- One decoded chunk of the Gemini backend stream: its text (absent or
possibly empty — the source's `if (text)` skips empty text) and its
function calls (name and arguments). -/
structure GemChunk where
  text : Option String := none
  functionCalls : List (String × Args) := []

namespace GeminiProvider

/-- The onChunk output and aggregated result of GeminiProvider.chatStream
over a backend stream: text deltas are accumulated and re-emitted, each
function call is assigned the id `gemini_<now>_<index>` and emitted as a
tool_call chunk, and a final `done` chunk is always emitted through the
callback before the promise resolves.  `now` stands for Date.now(). -/
def chatStreamOutput (now : Nat) (stream : List GemChunk) : ProviderTurn :=
  let r := stream.foldl (fun acc ck =>
    let acc1 := match ck.text with
      | some t =>
        if t.isEmpty then acc
        else (acc.1 ++ t, acc.2.1, acc.2.2 ++ [StreamChunk.text t])
      | none => acc
    ck.functionCalls.foldl (fun a fc =>
      let tc : ToolCall :=
        ⟨"gemini_" ++ toString now ++ "_" ++ toString a.2.1.length, fc.1, fc.2⟩
      (a.1, a.2.1 ++ [tc], a.2.2 ++ [StreamChunk.tool_call tc])) acc1)
    ("", [], [])
  { chunks := r.2.2 ++ [.done],
    response :=
      { role := .assistant, content := r.1,
        toolCalls := if r.2.1.isEmpty then none else some r.2.1 } }

end GeminiProvider

/-- A streaming oracle behaving as GeminiProvider.chatStream does on a
backend stream holding one text delta and no function calls. -/
def gemNoToolsOracle : LLMStreamOracle := fun _ =>
  GeminiProvider.chatStreamOutput 0 [⟨some "hi", []⟩]

/-- C2 counterexample: one MCPChatService.chatStream turn over the Gemini
provider ends [text, done, done] — the provider's own done chunk is
re-yielded before the generator's final done, so the sequence contains two
done chunks and the first of them is not the last element. -/
theorem mcp_stream_two_done_counterexample :
    MCPChatService.chatStreamChunks gemNoToolsOracle execMCPW []
      MAX_TOOL_ITERATIONS = [.text "hi", .done, .done] ∧
    (MCPChatService.chatStreamChunks gemNoToolsOracle execMCPW []
      MAX_TOOL_ITERATIONS).count .done = 2 := by
  exact ⟨by decide, by decide⟩

/-- C2 (amended): every streamed turn is a finite chunk sequence whose
last element is `done` and which contains no `error` chunk (a fatal
provider failure propagates as an exception, outside the chunk sequence).
ChatService.chatStream re-yields only the text chunks of each provider
call, so its sequence contains exactly one `done`; MCPChatService.chatStream
re-yields every collected provider chunk, so — for any provider emitting
one done per call and no error chunks, as both backends do — its sequence
contains one done per provider call plus the final one, i.e. the number of
iteration records + 1, not exactly one. -/
theorem stream_terminal_chunks (llmS llmM : LLMStreamOracle)
    (exec : ToolCall → ExtendedToolResult) (execMCP : ToolCall → String)
    (msgs msgsM : List Message)
    (H1 : ∀ ms, ((llmM ms).chunks.count .done = 1))
    (H2 : ∀ ms s, StreamChunk.error s ∉ (llmM ms).chunks) :
    (ChatService.chatStreamChunks llmS exec msgs MAX_TOOL_ITERATIONS).count .done = 1 ∧
    (ChatService.chatStreamChunks llmS exec msgs MAX_TOOL_ITERATIONS).getLast? =
      some .done ∧
    (∀ s, StreamChunk.error s ∉
      ChatService.chatStreamChunks llmS exec msgs MAX_TOOL_ITERATIONS) ∧
    (MCPChatService.chatStreamChunks llmM execMCP msgsM MAX_TOOL_ITERATIONS).count
        .done =
      (MCPChatService.chatStreamIters llmM execMCP msgsM MAX_TOOL_ITERATIONS).length
        + 1 ∧
    (MCPChatService.chatStreamChunks llmM execMCP msgsM MAX_TOOL_ITERATIONS).getLast? =
      some .done ∧
    (∀ s, StreamChunk.error s ∉
      MCPChatService.chatStreamChunks llmM execMCP msgsM MAX_TOOL_ITERATIONS) :=
  ⟨cs_chunks_count_done llmS exec _ _,
   List.getLast?_concat _,
   fun s => cs_chunks_no_error llmS exec _ _ s,
   mcp_chunks_count_done llmM execMCP H1 _ _,
   List.getLast?_concat _,
   fun s => mcp_chunks_no_error llmM execMCP H2 _ _ s⟩

/-- C2 witness: concrete turns of both services — one done in the
ChatService sequence, two (= 1 iteration + 1) in the MCPChatService
sequence over the Gemini-shaped provider. -/
theorem stream_terminal_chunks_witness :
    (ChatService.chatStreamChunks alwaysToolsStreamOracle execW []
      MAX_TOOL_ITERATIONS).count .done = 1 ∧
    (MCPChatService.chatStreamChunks gemNoToolsOracle execMCPW []
      MAX_TOOL_ITERATIONS).count .done = 2 := by
  have hch : (gemNoToolsOracle []).chunks = [.text "hi", .done] := by decide
  have h := stream_terminal_chunks alwaysToolsStreamOracle gemNoToolsOracle
    execW execMCPW [] []
    (fun ms => by
      show (GeminiProvider.chatStreamOutput 0 [⟨some "hi", []⟩]).chunks.count
        StreamChunk.done = 1
      decide)
    (fun ms s => by
      show StreamChunk.error s ∉
        (GeminiProvider.chatStreamOutput 0 [⟨some "hi", []⟩]).chunks
      rw [show (GeminiProvider.chatStreamOutput 0 [⟨some "hi", []⟩]).chunks =
        [.text "hi", .done] from by decide]
      simp)
  refine ⟨h.1, ?_⟩
  rw [h.2.2.2.1]
  decide

/-! Cap exhaustion (C3). -/

lemma cs_iters_length_of_tools (llm : LLMStreamOracle)
    (exec : ToolCall → ExtendedToolResult)
    (hT : ∀ ms, (llm ms).response.getToolCalls ≠ []) :
    ∀ (fuel : Nat) (msgs : List Message),
      (ChatService.chatStreamIters llm exec msgs fuel).length = fuel := by
  intro fuel
  induction fuel with
  | zero => intro msgs; simp [ChatService.chatStreamIters]
  | succ fuel ih =>
    intro msgs
    cases h : (llm msgs).response.getToolCalls with
    | nil => exact absurd h (hT msgs)
    | cons tc tcs =>
      simp only [ChatService.chatStreamIters, h, List.length_cons, ih]

lemma mcp_iters_length_of_tools (llm : LLMStreamOracle) (execMCP : ToolCall → String)
    (hT : ∀ ms, (llm ms).response.getToolCalls ≠ []) :
    ∀ (fuel : Nat) (msgs : List Message),
      (MCPChatService.chatStreamIters llm execMCP msgs fuel).length = fuel := by
  intro fuel
  induction fuel with
  | zero => intro msgs; simp [MCPChatService.chatStreamIters]
  | succ fuel ih =>
    intro msgs
    cases h : (llm msgs).response.getToolCalls with
    | nil => exact absurd h (hT msgs)
    | cons tc tcs =>
      simp only [MCPChatService.chatStreamIters, h, List.length_cons, ih]

lemma mcp_chatLoop_apology (llm : LLMChatOracle) (execMCP : ToolCall → String)
    (hT : ∀ ms, (llm ms).getToolCalls ≠ []) :
    ∀ (fuel : Nat) (msgs : List Message),
      (MCPChatService.chatLoop llm execMCP msgs fuel).2 =
        MCPChatService.apologyMessage := by
  intro fuel
  induction fuel with
  | zero => intro msgs; rfl
  | succ fuel ih =>
    intro msgs
    cases h : (llm msgs).getToolCalls with
    | nil => exact absurd h (hT msgs)
    | cons tc tcs =>
      simp only [MCPChatService.chatLoop, h, ih]

/-- C3 counterexample: under a model that keeps requesting tool calls every
iteration, the ChatService.chatStream turn is exactly five tool_call
chunks followed by a bare `done`, and neither streaming service's
sequence contains any text chunk at all — so no assistant-style apology
chunk precedes the `done` when the iteration cap is exhausted. -/
theorem cap_exhaustion_no_apology_counterexample :
    ChatService.chatStreamChunks alwaysToolsStreamOracle execW []
      MAX_TOOL_ITERATIONS =
      [.tool_call tcW, .tool_call tcW, .tool_call tcW, .tool_call tcW,
        .tool_call tcW, .done] ∧
    (ChatService.chatStreamChunks alwaysToolsStreamOracle execW []
      MAX_TOOL_ITERATIONS).all (fun c => !c.isText) = true ∧
    (MCPChatService.chatStreamChunks alwaysToolsStreamOracle execMCPW []
      MAX_TOOL_ITERATIONS).all (fun c => !c.isText) = true ∧
    (MCPChatService.chatStreamChunks alwaysToolsStreamOracle execMCPW []
      MAX_TOOL_ITERATIONS).getLast? = some .done := by
  exact ⟨by decide, by decide, by decide, by decide⟩

/-- C3 (amended): when the iteration cap is reached while the model is
still requesting tool calls, both streaming services emit all 5 iteration
records, still terminate the sequence with a `done` chunk and never with
an `error` chunk, and inject no apology chunk — every text chunk of the
sequence originates from some provider turn.  The apology fallback exists
only in the non-streaming MCPChatService.chat, whose returned message is
then exactly the apology message. -/
theorem cap_exhaustion_graceful (llmS llmM : LLMStreamOracle) (llmC : LLMChatOracle)
    (exec : ToolCall → ExtendedToolResult) (execMCP : ToolCall → String)
    (msgs msgsM msgsC : List Message)
    (hS : ∀ ms, (llmS ms).response.getToolCalls ≠ [])
    (hM : ∀ ms, (llmM ms).response.getToolCalls ≠ [])
    (hMerr : ∀ ms s, StreamChunk.error s ∉ (llmM ms).chunks)
    (hC : ∀ ms, (llmC ms).getToolCalls ≠ []) :
    (ChatService.chatStreamIters llmS exec msgs MAX_TOOL_ITERATIONS).length =
      MAX_TOOL_ITERATIONS ∧
    (MCPChatService.chatStreamIters llmM execMCP msgsM MAX_TOOL_ITERATIONS).length =
      MAX_TOOL_ITERATIONS ∧
    (ChatService.chatStreamChunks llmS exec msgs MAX_TOOL_ITERATIONS).getLast? =
      some .done ∧
    (MCPChatService.chatStreamChunks llmM execMCP msgsM MAX_TOOL_ITERATIONS).getLast? =
      some .done ∧
    (∀ s, StreamChunk.error s ∉
      ChatService.chatStreamChunks llmS exec msgs MAX_TOOL_ITERATIONS) ∧
    (∀ s, StreamChunk.error s ∉
      MCPChatService.chatStreamChunks llmM execMCP msgsM MAX_TOOL_ITERATIONS) ∧
    (∀ s, StreamChunk.text s ∈
        ChatService.chatStreamChunks llmS exec msgs MAX_TOOL_ITERATIONS →
      ∃ ms, StreamChunk.text s ∈ (llmS ms).chunks) ∧
    (∀ s, StreamChunk.text s ∈
        MCPChatService.chatStreamChunks llmM execMCP msgsM MAX_TOOL_ITERATIONS →
      ∃ ms, StreamChunk.text s ∈ (llmM ms).chunks) ∧
    (MCPChatService.chat llmC execMCP msgsC).2 = MCPChatService.apologyMessage :=
  ⟨cs_iters_length_of_tools llmS exec hS _ _,
   mcp_iters_length_of_tools llmM execMCP hM _ _,
   List.getLast?_concat _,
   List.getLast?_concat _,
   fun s => cs_chunks_no_error llmS exec _ _ s,
   fun s => mcp_chunks_no_error llmM execMCP hMerr _ _ s,
   fun s => cs_text_origin llmS exec _ _ s,
   fun s => mcp_text_origin llmM execMCP _ _ s,
   mcp_chatLoop_apology llmC execMCP hC _ _⟩

/-- C3 witness: with the concrete always-requesting model, the cap is
reached (5 iteration records) and the non-streaming MCPChatService.chat
returns the apology message. -/
theorem cap_exhaustion_graceful_witness :
    (ChatService.chatStreamIters alwaysToolsStreamOracle execW []
      MAX_TOOL_ITERATIONS).length = MAX_TOOL_ITERATIONS ∧
    (MCPChatService.chat alwaysToolsChatOracle execMCPW []).2 =
      MCPChatService.apologyMessage := by
  have h := cap_exhaustion_graceful alwaysToolsStreamOracle alwaysToolsStreamOracle
    alwaysToolsChatOracle execW execMCPW [] [] []
    (fun ms => by show ([tcW] : List ToolCall) ≠ []; decide)
    (fun ms => by show ([tcW] : List ToolCall) ≠ []; decide)
    (fun ms s => by
      show StreamChunk.error s ∉ (alwaysToolsStreamOracle ms).chunks
      simp [alwaysToolsStreamOracle])
    (fun ms => by show ([tcW] : List ToolCall) ≠ []; decide)
  exact ⟨h.1, h.2.2.2.2.2.2.2.2⟩

/-! Tool-call / tool-message correlation (C5). -/

/-- The number of tool-role messages answering toolCallId `i` in a message
list. -/
def toolMsgCount (i : String) (msgs : List Message) : Nat :=
  msgs.countP (fun m => decide (m.role = Role.tool ∧ m.toolCallId = some i))

lemma countP_id_eq_one : ∀ (calls : List ToolCall) (i : String),
    (calls.map ToolCall.id).Nodup → (∃ tc ∈ calls, tc.id = i) →
    calls.countP (fun c => decide (c.id = i)) = 1 := by
  intro calls
  induction calls with
  | nil =>
    intro i _ hex
    rcases hex with ⟨tc, htc, _⟩
    cases htc
  | cons c cs ih =>
    intro i hnd hex
    rw [List.countP_cons]
    rcases hex with ⟨tc, htc, hid⟩
    rcases List.mem_cons.mp htc with rfl | htc'
    · have hni : tc.id ∉ cs.map ToolCall.id := (List.nodup_cons.mp hnd).1
      have h0 : cs.countP (fun c => decide (c.id = i)) = 0 := by
        refine List.countP_eq_zero.mpr (fun x hx => ?_)
        simp only [decide_eq_true_eq]
        intro hxi
        exact hni (hid ▸ hxi ▸ List.mem_map_of_mem ToolCall.id hx)
      rw [h0, if_pos (by simp [hid])]
    · have hni : c.id ∉ cs.map ToolCall.id := (List.nodup_cons.mp hnd).1
      have hmem : i ∈ cs.map ToolCall.id := hid ▸ List.mem_map_of_mem ToolCall.id htc'
      have hcne : ¬ (c.id = i) := fun he => hni (he ▸ hmem)
      rw [ih i (List.nodup_cons.mp hnd).2 ⟨tc, htc', hid⟩, if_neg (by simp [hcne])]

lemma toolMsgCount_appended (response : Message) (content : ToolCall → String)
    (calls : List ToolCall) (i : String)
    (hrole : response.role = .assistant)
    (hnd : (calls.map ToolCall.id).Nodup) (tc : ToolCall)
    (htc : tc ∈ calls) (hid : tc.id = i) :
    toolMsgCount i
      (response :: calls.map (fun c => toolMessage (content c) c.id)) = 1 := by
  unfold toolMsgCount
  rw [List.countP_cons, List.countP_map]
  have hresp : ¬ (response.role = Role.tool ∧ response.toolCallId = some i) := by
    rintro ⟨h1, _⟩
    rw [hrole] at h1
    cases h1
  rw [if_neg (by simpa using hresp), Nat.add_zero]
  have hfun : ((fun m => decide (m.role = Role.tool ∧ m.toolCallId = some i)) ∘
      (fun c => toolMessage (content c) c.id)) = fun c => decide (c.id = i) := by
    funext c
    simp [toolMessage]
  rw [hfun]
  exact countP_id_eq_one calls i hnd ⟨tc, htc, hid⟩

lemma cs_iters_shape (llm : LLMStreamOracle) (exec : ToolCall → ExtendedToolResult) :
    ∀ (fuel : Nat) (msgs : List Message) (r : IterRec),
      r ∈ ChatService.chatStreamIters llm exec msgs fuel →
      r.turn = llm r.transcript ∧
      (r.turn.response.getToolCalls = [] →
        r.emitted = r.turn.chunks.filter StreamChunk.isText ∧ r.appended = []) ∧
      (r.turn.response.getToolCalls ≠ [] →
        r.emitted = r.turn.chunks.filter StreamChunk.isText ++
          r.turn.response.getToolCalls.flatMap (ChatService.dispatchChunks exec) ∧
        r.appended = r.turn.response ::
          r.turn.response.getToolCalls.map
            (fun c => toolMessage (exec c).content c.id)) := by
  intro fuel
  induction fuel with
  | zero =>
    intro msgs r hr
    simp [ChatService.chatStreamIters] at hr
  | succ fuel ih =>
    intro msgs r hr
    cases h : (llm msgs).response.getToolCalls with
    | nil =>
      simp only [ChatService.chatStreamIters, h, List.mem_singleton] at hr
      subst hr
      refine ⟨rfl, fun _ => ⟨rfl, rfl⟩, fun hne => absurd h hne⟩
    | cons tc tcs =>
      simp only [ChatService.chatStreamIters, h, List.mem_cons] at hr
      rcases hr with rfl | hr
      · exact ⟨rfl, fun he => absurd he (by simp [h]),
          fun _ => by simp [h]⟩
      · exact ih _ r hr

lemma mcp_iters_shape (llm : LLMStreamOracle) (execMCP : ToolCall → String) :
    ∀ (fuel : Nat) (msgs : List Message) (r : IterRec),
      r ∈ MCPChatService.chatStreamIters llm execMCP msgs fuel →
      r.turn = llm r.transcript ∧
      (r.turn.response.getToolCalls = [] →
        r.emitted = r.turn.chunks ∧ r.appended = []) ∧
      (r.turn.response.getToolCalls ≠ [] →
        r.emitted = r.turn.chunks ++
          r.turn.response.getToolCalls.map
            (fun c => StreamChunk.tool_result c (execMCP c)) ∧
        r.appended = r.turn.response ::
          r.turn.response.getToolCalls.map
            (fun c => toolMessage (execMCP c) c.id)) := by
  intro fuel
  induction fuel with
  | zero =>
    intro msgs r hr
    simp [MCPChatService.chatStreamIters] at hr
  | succ fuel ih =>
    intro msgs r hr
    cases h : (llm msgs).response.getToolCalls with
    | nil =>
      simp only [MCPChatService.chatStreamIters, h, List.mem_singleton] at hr
      subst hr
      refine ⟨rfl, fun _ => ⟨rfl, rfl⟩, fun hne => absurd h hne⟩
    | cons tc tcs =>
      simp only [MCPChatService.chatStreamIters, h, List.mem_cons] at hr
      rcases hr with rfl | hr
      · exact ⟨rfl, fun he => absurd he (by simp [h]),
          fun _ => by simp [h]⟩
      · exact ih _ r hr

lemma cs_iters_head_transcript (llm : LLMStreamOracle)
    (exec : ToolCall → ExtendedToolResult) (fuel : Nat) (msgs : List Message)
    (r : IterRec)
    (h : (ChatService.chatStreamIters llm exec msgs fuel).head? = some r) :
    r.transcript = msgs := by
  cases fuel with
  | zero => simp [ChatService.chatStreamIters] at h
  | succ fuel =>
    cases hg : (llm msgs).response.getToolCalls with
    | nil =>
      simp only [ChatService.chatStreamIters, hg, List.head?] at h
      cases h
      rfl
    | cons tc tcs =>
      simp only [ChatService.chatStreamIters, hg, List.head?] at h
      cases h
      rfl

lemma mcp_iters_head_transcript (llm : LLMStreamOracle)
    (execMCP : ToolCall → String) (fuel : Nat) (msgs : List Message)
    (r : IterRec)
    (h : (MCPChatService.chatStreamIters llm execMCP msgs fuel).head? = some r) :
    r.transcript = msgs := by
  cases fuel with
  | zero => simp [MCPChatService.chatStreamIters] at h
  | succ fuel =>
    cases hg : (llm msgs).response.getToolCalls with
    | nil =>
      simp only [MCPChatService.chatStreamIters, hg, List.head?] at h
      cases h
      rfl
    | cons tc tcs =>
      simp only [MCPChatService.chatStreamIters, hg, List.head?] at h
      cases h
      rfl

lemma cs_iters_chain (llm : LLMStreamOracle) (exec : ToolCall → ExtendedToolResult) :
    ∀ (fuel : Nat) (msgs : List Message),
      List.Chain' (fun r r' => r'.transcript = r.transcript ++ r.appended)
        (ChatService.chatStreamIters llm exec msgs fuel) := by
  intro fuel
  induction fuel with
  | zero => intro msgs; simp [ChatService.chatStreamIters]
  | succ fuel ih =>
    intro msgs
    cases h : (llm msgs).response.getToolCalls with
    | nil =>
      simp only [ChatService.chatStreamIters, h]
      exact List.chain'_singleton _
    | cons tc tcs =>
      simp only [ChatService.chatStreamIters, h]
      refine List.chain'_cons'.mpr ⟨fun y hy => ?_, ih _⟩
      have := cs_iters_head_transcript llm exec fuel _ y hy
      simpa using this

lemma mcp_iters_chain (llm : LLMStreamOracle) (execMCP : ToolCall → String) :
    ∀ (fuel : Nat) (msgs : List Message),
      List.Chain' (fun r r' => r'.transcript = r.transcript ++ r.appended)
        (MCPChatService.chatStreamIters llm execMCP msgs fuel) := by
  intro fuel
  induction fuel with
  | zero => intro msgs; simp [MCPChatService.chatStreamIters]
  | succ fuel ih =>
    intro msgs
    cases h : (llm msgs).response.getToolCalls with
    | nil =>
      simp only [MCPChatService.chatStreamIters, h]
      exact List.chain'_singleton _
    | cons tc tcs =>
      simp only [MCPChatService.chatStreamIters, h]
      refine List.chain'_cons'.mpr ⟨fun y hy => ?_, ih _⟩
      have := mcp_iters_head_transcript llm execMCP fuel _ y hy
      simpa using this

/-- C5: in every streaming orchestration turn the transcripts chain — each
language-model call's transcript is the previous call's transcript plus
the messages appended during that iteration — and, whenever the tool-call
ids of an assistant response are distinct and (for MCPChatService, whose
tool_call chunks come from the provider) the provider's tool_call chunks
list exactly the response's tool calls, every `tool_call` chunk emitted in
an iteration has exactly one tool-role message with that toolCallId among
the messages appended before the next language-model call. -/
theorem tool_call_transcript_invariant (llmS llmM : LLMStreamOracle)
    (exec : ToolCall → ExtendedToolResult) (execMCP : ToolCall → String)
    (msgs msgsM : List Message) :
    List.Chain' (fun r r' => r'.transcript = r.transcript ++ r.appended)
      (ChatService.chatStreamIters llmS exec msgs MAX_TOOL_ITERATIONS) ∧
    (∀ r ∈ ChatService.chatStreamIters llmS exec msgs MAX_TOOL_ITERATIONS,
      (r.turn.response.getToolCalls.map ToolCall.id).Nodup →
      r.turn.response.role = .assistant →
      ∀ tc, StreamChunk.tool_call tc ∈ r.emitted →
        toolMsgCount tc.id r.appended = 1) ∧
    List.Chain' (fun r r' => r'.transcript = r.transcript ++ r.appended)
      (MCPChatService.chatStreamIters llmM execMCP msgsM MAX_TOOL_ITERATIONS) ∧
    (∀ r ∈ MCPChatService.chatStreamIters llmM execMCP msgsM MAX_TOOL_ITERATIONS,
      r.turn.chunks.filterMap StreamChunk.asToolCall =
        r.turn.response.getToolCalls →
      (r.turn.response.getToolCalls.map ToolCall.id).Nodup →
      r.turn.response.role = .assistant →
      ∀ tc, StreamChunk.tool_call tc ∈ r.emitted →
        toolMsgCount tc.id r.appended = 1) := by
  refine ⟨cs_iters_chain llmS exec _ _, ?_, mcp_iters_chain llmM execMCP _ _, ?_⟩
  · intro r hr hnd hrole tc htc
    obtain ⟨-, hnil, hcons⟩ := cs_iters_shape llmS exec _ _ r hr
    cases hg : r.turn.response.getToolCalls with
    | nil =>
      obtain ⟨he, -⟩ := hnil hg
      rw [he] at htc
      have := (List.mem_filter.mp htc).2
      simp [StreamChunk.isText] at this
    | cons c cs =>
      obtain ⟨he, ha⟩ := hcons (by simp [hg])
      rw [he] at htc
      rcases List.mem_append.mp htc with htc' | htc'
      · have := (List.mem_filter.mp htc').2
        simp [StreamChunk.isText] at this
      · obtain ⟨c', hc', hmem⟩ := List.mem_flatMap.mp htc'
        rcases mem_dispatchChunks exec c' _ hmem with heq | ⟨x, heq⟩
        · have htcc : tc = c' := by
            injection heq
          rw [ha]
          exact toolMsgCount_appended _ _ _ _ hrole hnd tc (htcc ▸ hc') rfl
        · cases heq
  · intro r hr hfm hnd hrole tc htc
    obtain ⟨-, hnil, hcons⟩ := mcp_iters_shape llmM execMCP _ _ r hr
    cases hg : r.turn.response.getToolCalls with
    | nil =>
      obtain ⟨he, -⟩ := hnil hg
      rw [he] at htc
      have : tc ∈ r.turn.chunks.filterMap StreamChunk.asToolCall :=
        List.mem_filterMap.mpr ⟨_, htc, rfl⟩
      rw [hfm, hg] at this
      cases this
    | cons c cs =>
      obtain ⟨he, ha⟩ := hcons (by simp [hg])
      rw [he] at htc
      rcases List.mem_append.mp htc with htc' | htc'
      · have : tc ∈ r.turn.chunks.filterMap StreamChunk.asToolCall :=
          List.mem_filterMap.mpr ⟨_, htc', rfl⟩
        rw [hfm] at this
        rw [ha]
        exact toolMsgCount_appended _ _ _ _ hrole hnd tc this rfl
      · obtain ⟨c', _, heq⟩ := List.mem_map.mp htc'
        cases heq

/-- The first iteration record of a concrete ChatService.chatStream run
under the always-requesting model. -/
def firstRecCS : IterRec :=
  ⟨[], alwaysToolsStreamOracle [],
   [.tool_call tcW],
   [{ role := .assistant, content := "", toolCalls := some [tcW] },
    toolMessage "[]" "call_1"]⟩

/-- The first iteration record of a concrete MCPChatService.chatStream run
under the always-requesting model. -/
def firstRecMCP : IterRec :=
  ⟨[], alwaysToolsStreamOracle [],
   [.tool_call tcW, .done, .tool_result tcW "[]"],
   [{ role := .assistant, content := "", toolCalls := some [tcW] },
    toolMessage "[]" "call_1"]⟩

/-- C5 witness: in the concrete runs, the iteration that emitted the
tool_call chunk for `call_1` appended exactly one tool message with
toolCallId `call_1`. -/
theorem tool_call_transcript_invariant_witness :
    toolMsgCount "call_1" firstRecCS.appended = 1 ∧
    toolMsgCount "call_1" firstRecMCP.appended = 1 := by
  have h := tool_call_transcript_invariant alwaysToolsStreamOracle
    alwaysToolsStreamOracle execW execMCPW [] []
  exact ⟨h.2.1 firstRecCS (by decide) (by decide) (by decide) tcW (by decide),
    h.2.2.2 firstRecMCP (by decide) (by decide) (by decide) (by decide) tcW (by decide)⟩

end SmartShop
